import Mathlib

/-!
Shallow embedding of `ivadomed/metrics.py`.

Arrays (`numpy.ndarray`) are modelled as a shape (list of axis sizes) together
with a flat row-major data list of rationals; a well-formed array satisfies
`data.length = shape.prod`.  Python floats are modelled as `ℚ` with explicit
markers for `nan` and `inf` (the only non-finite values the module can
produce).  Fallible Python code returns `Except PyErr`.
-/

set_option maxHeartbeats 1000000

/-- Python exceptions that the metrics module can raise. -/
inductive PyErr where
  | valueError
  | indexError
  | attributeError
  | zeroDivisionError
  deriving DecidableEq, Repr

/-- A Python float result: a finite rational, `np.nan`, or `np.inf`. -/
inductive RVal where
  | nan
  | inf
  | num (q : ℚ)
  deriving DecidableEq, Repr

/-- A numpy `nd.array`: shape plus flat row-major data. -/
structure NDArray where
  shape : List ℕ
  data : List ℚ
  deriving DecidableEq, Repr

/-- A well-formed array has exactly `shape.prod` elements. -/
def NDArray.valid (a : NDArray) : Prop := a.data.length = a.shape.prod

/-- Pad a shape on the left with `1`s up to rank `n` (numpy broadcasting). -/
def padShape (n : ℕ) (s : List ℕ) : List ℕ :=
  List.replicate (n - s.length) 1 ++ s

/-- Two shapes are broadcast-compatible when, after left-padding with `1`s,
each pair of axis sizes is equal or one of them is `1`. -/
def bcastCompat (s t : List ℕ) : Bool :=
  let n := max s.length t.length
  ((padShape n s).zip (padShape n t)).all (fun p => p.1 == p.2 || p.1 == 1 || p.2 == 1)

/-- The broadcast result shape: elementwise max of the padded shapes. -/
def bshape (s t : List ℕ) : List ℕ :=
  let n := max s.length t.length
  ((padShape n s).zip (padShape n t)).map (fun p => max p.1 p.2)

/-- All multi-indices of a shape, in row-major order. -/
def allIndices : List ℕ → List (List ℕ)
  | [] => [[]]
  | d :: ds => (List.range d).flatMap (fun i => (allIndices ds).map (i :: ·))

/-- Row-major flat index of a multi-index within a shape. -/
def flatIndex : List ℕ → List ℕ → ℕ
  | _ :: ds, i :: is => i * ds.prod + flatIndex ds is
  | _, _ => 0

/-- Source multi-index that a broadcast index reads from: axes of size `1`
are pinned to `0`. -/
def srcIndex (s idx : List ℕ) : List ℕ :=
  (s.zip idx).map (fun p => if p.1 == 1 then 0 else p.2)

/-- Element of array `x` read at broadcast multi-index `idx`. -/
def bget (x : NDArray) (idx : List ℕ) : ℚ :=
  let sp := padShape idx.length x.shape
  x.data.getD (flatIndex sp (srcIndex sp idx)) 0

/-- Number of broadcast positions where `prediction` reads `a` and
`groundtruth` reads `b` (models `np.sum((prediction == a) & (groundtruth == b))`). -/
def bcount (prediction groundtruth : NDArray) (a b : ℚ) : ℕ :=
  ((allIndices (bshape prediction.shape groundtruth.shape)).filter
    (fun idx => bget prediction idx == a && bget groundtruth idx == b)).length

/-- Model of `numeric_score`: the four confusion counts
`FP, FN, TP, TN` as floats.  The numpy comparisons broadcast the two arrays;
incompatible shapes raise `ValueError`. -/
def numeric_score (prediction groundtruth : NDArray) : Except PyErr (ℚ × ℚ × ℚ × ℚ) :=
  if bcastCompat prediction.shape groundtruth.shape then
    .ok ((bcount prediction groundtruth 1 0 : ℚ), (bcount prediction groundtruth 0 1 : ℚ),
         (bcount prediction groundtruth 1 1 : ℚ), (bcount prediction groundtruth 0 0 : ℚ))
  else .error .valueError

/-- Model of `dice_score`: shape-mismatch raises `ValueError`; if both sums
are zero the `empty_score` argument is returned; otherwise
`2 * (im1 * im2).sum() / (im1.sum() + im2.sum())`. -/
def dice_score (im1 im2 : NDArray) (empty_score : RVal) : Except PyErr RVal :=
  if im1.shape = im2.shape then
    if im1.data.sum + im2.data.sum = 0 then .ok empty_score
    else .ok (.num (2 * (List.zipWith (fun x y => x * y) im1.data im2.data).sum /
      (im1.data.sum + im2.data.sum)))
  else .error .valueError

/-- Finite value of `dice_score` on equal-shaped arrays (helper for stating
theorems; `dice_score a b (.num e) = .ok (.num (diceQ a b e))` when shapes agree). -/
def diceQ (im1 im2 : NDArray) (empty : ℚ) : ℚ :=
  if im1.data.sum + im2.data.sum = 0 then empty
  else 2 * (List.zipWith (fun x y => x * y) im1.data im2.data).sum / (im1.data.sum + im2.data.sum)

/-- Model of `mse`: shape-mismatch raises `ValueError`; with fewer than two
axes, `im1.shape[1]` raises `IndexError`; otherwise the sum of squared
differences is divided by `float(shape[0] * shape[1])`, where numpy float
division by zero yields `nan` (for a zero numerator) or `inf`. -/
def mse (im1 im2 : NDArray) : Except PyErr RVal :=
  if im1.shape = im2.shape then
    match im1.shape with
    | s0 :: s1 :: _ =>
      if ((s0 * s1 : ℕ) : ℚ) = 0 then
        (if (List.zipWith (fun x y => (x - y) ^ 2) im1.data im2.data).sum = 0 then
          .ok .nan
        else .ok .inf)
      else
        .ok (.num ((List.zipWith (fun x y => (x - y) ^ 2) im1.data im2.data).sum /
          ((s0 * s1 : ℕ) : ℚ)))
    | _ => .error .indexError
  else .error .valueError

/-- Model of `precision_score`: `TP / (TP + FP)`, or `err_value` when the
denominator is not positive. -/
def precision_score (prediction groundtruth : NDArray) (err_value : ℚ) : Except PyErr ℚ :=
  match numeric_score prediction groundtruth with
  | .error err => .error err
  | .ok (FP, _FN, TP, _TN) =>
    if TP + FP ≤ 0 then .ok err_value else .ok (TP / (TP + FP))

/-- Model of `recall_score`: `TP / (TP + FN)`, or `err_value` when the
denominator is not positive. -/
def recall_score (prediction groundtruth : NDArray) (err_value : ℚ) : Except PyErr ℚ :=
  match numeric_score prediction groundtruth with
  | .error err => .error err
  | .ok (_FP, FN, TP, _TN) =>
    if TP + FN ≤ 0 then .ok err_value else .ok (TP / (TP + FN))

/-- Model of `specificity_score`: `TN / (TN + FP)`, or `err_value` when the
denominator is not positive. -/
def specificity_score (prediction groundtruth : NDArray) (err_value : ℚ) : Except PyErr ℚ :=
  match numeric_score prediction groundtruth with
  | .error err => .error err
  | .ok (FP, _FN, _TP, TN) =>
    if TN + FP ≤ 0 then .ok err_value else .ok (TN / (TN + FP))

/-- Model of `intersection_over_union`: `TP / (TP + FP + FN)`, or `err_value`
when the denominator is not positive. -/
def intersection_over_union (prediction groundtruth : NDArray) (err_value : ℚ) :
    Except PyErr ℚ :=
  match numeric_score prediction groundtruth with
  | .error err => .error err
  | .ok (FP, FN, TP, _TN) =>
    if TP + FP + FN ≤ 0 then .ok err_value else .ok (TP / (TP + FP + FN))

/-- Per-class slice `a[i,]` of an array along the leading axis (pure value;
bounds are checked by `sliceLead`). -/
def sliceLeadP (a : NDArray) (i : ℕ) : NDArray :=
  ⟨a.shape.tail, (a.data.drop (i * a.shape.tail.prod)).take a.shape.tail.prod⟩

/-- Indexing `a[i,]`: raises `IndexError` on a 0-d array or out-of-range index. -/
def sliceLead (a : NDArray) (i : ℕ) : Except PyErr NDArray :=
  match a.shape with
  | [] => .error .indexError
  | d :: _ => if i < d then .ok (sliceLeadP a i) else .error .indexError

/-- Addition of Python floats with `nan`/`inf` propagation (only the
combinations the module can produce). -/
def rvAdd : RVal → RVal → RVal
  | .nan, _ => .nan
  | _, .nan => .nan
  | .inf, _ => .inf
  | _, .inf => .inf
  | .num a, .num b => .num (a + b)

/-- Division of a Python float by a positive machine integer. -/
def rvDivNat (r : RVal) (n : ℕ) : RVal :=
  match r with
  | .nan => .nan
  | .inf => .inf
  | .num q => .num (q / n)

/-- Model of `multi_class_dice_score`: `n_classes = im1.shape[0]` (raises
`IndexError` on a 0-d array), sums `dice_score(im1[i,], im2[i,], empty_score=1.0)`
over the classes and divides by `n_classes` (a zero class count raises
`ZeroDivisionError` at the division). -/
def multi_class_dice_score (im1 im2 : NDArray) : Except PyErr RVal :=
  match im1.shape with
  | [] => .error .indexError
  | c :: _ =>
    if c = 0 then .error .zeroDivisionError
    else do
      let s ← (List.range c).foldlM (fun acc i => do
          let a ← sliceLead im1 i
          let b ← sliceLead im2 i
          let d ← dice_score a b (RVal.num 1)
          pure (rvAdd acc d)) (RVal.num 0)
      pure (rvDivNat s c)

/-- Value stored in the aggregator's result dictionary.  `__init__` uses
`defaultdict(list)`, whose on-access default is an empty series; after the
buggy `reset` the dictionary is `defaultdict(float)`, whose on-access default
is the float `0.0`. -/
inductive DVal where
  | series (l : List RVal)
  | flt (q : ℚ)
  deriving Repr

/-- Which defaultdict backs `result_dict`: `defaultdict(list)` or
`defaultdict(float)`. -/
inductive DDKind where
  | listD
  | floatD
  deriving DecidableEq, Repr

/-- First-match lookup in an insertion-ordered dictionary. -/
def dget {β : Type} : List (String × β) → String → Option β
  | [], _ => none
  | (k', v) :: rest, k => if k' = k then some v else dget rest k

/-- Replace the value of an existing key, or append a new entry at the end
(insertion order of a Python dict). -/
def dset {β : Type} : List (String × β) → String → β → List (String × β)
  | [], k, v => [(k, v)]
  | (k', v') :: rest, k, v => if k' = k then (k, v) :: rest else (k', v') :: dset rest k v

/-- Model of `self.result_dict[dict_key].append(res)`: a missing key is
created by the defaultdict (an empty list, or the float `0.0` after the buggy
`reset`), and `.append` on a float raises `AttributeError`. -/
def appendRes (d : List (String × DVal)) (kind : DDKind) (k : String) (r : RVal) :
    Except PyErr (List (String × DVal)) :=
  match dget d k with
  | some (.series l) => .ok (dset d k (.series (l ++ [r])))
  | some (.flt _) => .error .attributeError
  | none =>
    match kind with
    | .listD => .ok (dset d k (.series [r]))
    | .floatD => .error .attributeError

/-- Model of `MetricManager`: registered metric functions (name together with
a callable), the running sample count, and the per-metric result dictionary.
`dd` records which defaultdict currently backs `result_dict`. -/
structure MetricManager (α : Type) where
  metric_fns : List (String × (α → α → RVal))
  num_samples : ℕ
  result_dict : List (String × DVal)
  dd : DDKind

/-- Model of `MetricManager.__init__`. -/
def mm_init {α : Type} (fns : List (String × (α → α → RVal))) : MetricManager α :=
  ⟨fns, 0, [], .listD⟩

/-- Model of `MetricManager.__call__`: adds `len(prediction)` to the sample
count and, for every metric function in registration order, appends one
result per `(prediction, ground_truth)` pair to that metric's series. -/
def mm_call {α : Type} (m : MetricManager α) (prediction ground_truth : List α) :
    Except PyErr (MetricManager α) := do
  let d ← m.metric_fns.foldlM (fun d fn =>
      (prediction.zip ground_truth).foldlM
        (fun d pg => appendRes d m.dd fn.1 (fn.2 pg.1 pg.2)) d)
    m.result_dict
  pure { m with num_samples := m.num_samples + prediction.length, result_dict := d }

/-- `np.isnan` on a stored metric result. -/
def isnanR : RVal → Bool
  | .nan => true
  | _ => false

/-- `np.isinf` on a stored metric result. -/
def isinfR : RVal → Bool
  | .inf => true
  | _ => false

/-- Finite part of a stored metric result. -/
def toNum : RVal → Option ℚ
  | .num q => some q
  | _ => none

/-- Model of `np.nanmean`: mean of the entries that are not `nan` (an `inf`
entry makes the mean `inf`). -/
def nanmean (l : List RVal) : RVal :=
  if l.any isinfR then .inf
  else .num ((l.filterMap toNum).sum / ((l.filterMap toNum).length : ℚ))

/-- Summary of one stored dictionary value, as in `get_results`: `None` when
every entry of the series is `nan`, otherwise `np.nanmean` of the series. -/
def entryVal : DVal → Option RVal
  | .series l => if l.all isnanR then none else some (nanmean l)
  | .flt q => some (.num q)

/-- Model of `MetricManager.get_results`: the summary dictionary, built from
`result_dict` in insertion order.  It reads the state and builds a fresh
dictionary, so it cannot mutate the aggregator. -/
def get_results {α : Type} (m : MetricManager α) : List (String × Option RVal) :=
  m.result_dict.map (fun e => (e.1, entryVal e.2))

/-- Reading the summary for a metric name, as `res_dict.get(name)` would:
`none` both for a metric absent from the summary and for one reported as
`None` ("no data"). -/
def reportGet (r : List (String × Option RVal)) (k : String) : Option RVal :=
  match dget r k with
  | some (some x) => some x
  | _ => none

/-- Model of `MetricManager.reset`: zeroes the sample count and replaces
`result_dict` with `defaultdict(float)` — exactly as the source does, float
default included. -/
def mm_reset {α : Type} (m : MetricManager α) : MetricManager α :=
  { m with num_samples := 0, result_dict := [], dd := .floatD }

/-- Points of a 2-d array: its rows (`scipy.spatial.distance.directed_hausdorff`
treats rows as points). -/
def rows (a : NDArray) : List (List ℚ) :=
  match a.shape with
  | [m, n] => (List.range m).map (fun i => (a.data.drop (i * n)).take n)
  | _ => []

/-- Euclidean distance between two points. -/
noncomputable def euclid (u v : List ℚ) : ℝ :=
  Real.sqrt ((List.zipWith (fun a b => ((a - b : ℚ) : ℝ) ^ 2) u v).sum)

/-- Distance from a point to its nearest point of a set (`0` for an empty
set, matching the accumulator-skipping scipy loop whose result is then `0`). -/
noncomputable def minD (p : List ℚ) : List (List ℚ) → ℝ
  | [] => 0
  | q :: rest => (rest.map (euclid p)).foldl min (euclid p q)

/-- Directed Hausdorff distance between two point sets: the largest
nearest-point distance from a point of `u` to the set `v`. -/
noncomputable def dH (u v : List (List ℚ)) : ℝ :=
  (u.map (fun p => minD p v)).foldl max 0

/-- Model of `scipy.spatial.distance.directed_hausdorff(u, v)[0]`: both inputs
must be 2-d with the same number of columns, else `ValueError`. -/
noncomputable def directedHausdorff (u v : NDArray) : Except PyErr ℝ :=
  match u.shape, v.shape with
  | [_, n], [_, n2] => if n = n2 then .ok (dH (rows u) (rows v)) else .error .valueError
  | _, _ => .error .valueError

/-- Middle-axis slice `a[:, i, :]` of a 3-d array (pure value; bounds are
checked by `sliceMid`). -/
def sliceMidP (a : NDArray) (i : ℕ) : NDArray :=
  match a.shape with
  | [d0, d1, d2] =>
    ⟨[d0, d2], (List.range d0).flatMap (fun r => (a.data.drop (r * (d1 * d2) + i * d2)).take d2)⟩
  | _ => a

/-- Indexing `a[:, i, :]`: raises `IndexError` unless `a` is 3-d and `i` is in
range. -/
def sliceMid (a : NDArray) (i : ℕ) : Except PyErr NDArray :=
  match a.shape with
  | [_, d1, _] => if i < d1 then .ok (sliceMidP a i) else .error .indexError
  | _ => .error .indexError

/-- Model of `np.reshape` to a fixed target shape: the element count must
match, and the flat row-major data is reinterpreted unchanged. -/
def np_reshape (a : NDArray) (s : List ℕ) : Except PyErr NDArray :=
  if a.data.length = s.prod then .ok ⟨s, a.data⟩ else .error .valueError

/-- Model of `hausdorff_score`: a 4-d `(class, height, depth, width)` input
pair is first reshaped to `(height, class * depth, width)`; a 3-d pair is
scored slice by slice along the middle axis and the mean over slices is
returned (a zero-sized middle axis raises `ZeroDivisionError` at the final
division); anything else is passed to `directed_hausdorff` directly. -/
noncomputable def hausdorff_score (prediction groundtruth : NDArray) : Except PyErr ℝ := do
  let pg ← (match prediction.shape with
    | [c, h, d, w] => do
        let p2 ← np_reshape prediction [h, c * d, w]
        let g2 ← np_reshape groundtruth [h, c * d, w]
        pure (p2, g2)
    | _ => pure (prediction, groundtruth))
  match pg.1.shape with
  | [_, d1, _] =>
    if d1 = 0 then .error .zeroDivisionError
    else do
      let s ← (List.range d1).foldlM (fun acc i => do
          let ps ← sliceMid pg.1 i
          let gs ← sliceMid pg.2 i
          let d ← directedHausdorff ps gs
          pure (acc + d)) (0 : ℝ)
      pure (s / (d1 : ℝ))
  | _ => directedHausdorff pg.1 pg.2

lemma sum_zipWith_sub_sq_self (l : List ℚ) :
    (List.zipWith (fun x y => (x - y) ^ 2) l l).sum = 0 := by
  induction l with
  | nil => rfl
  | cons a t ih => simp [ih]

lemma binary_mul_self_sum (l : List ℚ) (h : ∀ x ∈ l, x = 0 ∨ x = 1) :
    (List.zipWith (fun x y => x * y) l l).sum = l.sum := by
  induction l with
  | nil => rfl
  | cons a t ih =>
    have ih' := ih (fun x hx => h x (by simp [hx]))
    have ha : a * a = a := by rcases h a (by simp) with h' | h' <;> simp [h']
    simp only [List.zipWith_cons_cons, List.sum_cons, ih', ha]

lemma binary_sum_nonneg (l : List ℚ) (h : ∀ x ∈ l, x = 0 ∨ x = 1) : 0 ≤ l.sum := by
  apply List.sum_nonneg
  intro x hx
  rcases h x hx with h' | h' <;> simp [h']

lemma binary_sum_pos (l : List ℚ) (h : ∀ x ∈ l, x = 0 ∨ x = 1)
    (hx : ∃ x ∈ l, x ≠ 0) : 0 < l.sum := by
  induction l with
  | nil => simp at hx
  | cons a t ih =>
    have ht : ∀ x ∈ t, x = 0 ∨ x = 1 := fun x hx => h x (by simp [hx])
    rcases h a (by simp) with h0 | h1
    · obtain ⟨x, hxm, hxn⟩ := hx
      rcases List.mem_cons.mp hxm with rfl | hxt
      · exact absurd h0 hxn
      · have := ih ht ⟨x, hxt, hxn⟩
        simpa [h0] using this
    · have := binary_sum_nonneg t ht
      simp only [List.sum_cons, h1]
      linarith

lemma dget_map {β γ : Type} (d : List (String × β)) (f : β → γ) (k : String) :
    dget (d.map (fun e => (e.1, f e.2))) k = (dget d k).map f := by
  induction d with
  | nil => rfl
  | cons e rest ih =>
    obtain ⟨a, b⟩ := e
    by_cases h : a = k <;> simp [dget, h, ih]

lemma isnanR_eq_false {r : RVal} (h : r ≠ .nan) : isnanR r = false := by
  cases r with
  | nan => exact absurd rfl h
  | inf => rfl
  | num q => rfl

lemma padShape_self_len (s : List ℕ) : padShape s.length s = s := by
  simp [padShape]

lemma zip_self (s : List ℕ) : s.zip s = s.map (fun x => (x, x)) := by
  induction s with
  | nil => rfl
  | cons a t ih => simp [ih]

lemma bcastCompat_self (s : List ℕ) : bcastCompat s s = true := by
  simp only [bcastCompat, Nat.max_self, padShape_self_len, zip_self]
  apply List.all_eq_true.mpr
  intro x hx
  obtain ⟨y, _, rfl⟩ := List.mem_map.mp hx
  simp

lemma bshape_self (s : List ℕ) : bshape s s = s := by
  simp only [bshape, Nat.max_self, padShape_self_len, zip_self, List.map_map]
  have h : ((fun p : ℕ × ℕ => max p.1 p.2) ∘ fun x => (x, x)) = id := by
    funext x
    simp
  rw [h, List.map_id]

lemma sum_map_const_nat {X : Type} (l : List X) (c : ℕ) :
    (l.map (fun _ => c)).sum = l.length * c := by
  induction l with
  | nil => simp
  | cons a t ih =>
    simp [ih]
    ring

lemma length_allIndices (s : List ℕ) : (allIndices s).length = s.prod := by
  induction s with
  | nil => rfl
  | cons d ds ih =>
    have hf : (List.length ∘ fun i : ℕ => List.map (fun x => i :: x) (allIndices ds))
        = fun _ => ds.prod := by
      funext i
      simp [Function.comp, ih]
    simp only [allIndices]
    rw [List.length_flatMap, hf, sum_map_const_nat, List.length_range, List.prod_cons]

lemma getD_binary (l : List ℚ) (h : ∀ x ∈ l, x = 0 ∨ x = 1) (k : ℕ) :
    l.getD k 0 = 0 ∨ l.getD k 0 = 1 := by
  induction l generalizing k with
  | nil => left; simp
  | cons a t ih =>
    cases k with
    | zero => simpa using h a (by simp)
    | succ n => simpa using ih (fun x hx => h x (by simp [hx])) n

lemma bget_binary (x : NDArray) (h : ∀ q ∈ x.data, q = 0 ∨ q = 1) (idx : List ℕ) :
    bget x idx = 0 ∨ bget x idx = 1 :=
  getD_binary x.data h _

lemma filter_four_partition {X : Type} (u v : X → ℚ) (l : List X)
    (hu : ∀ i ∈ l, u i = 0 ∨ u i = 1) (hv : ∀ i ∈ l, v i = 0 ∨ v i = 1) :
    (l.filter (fun i => u i == 1 && v i == 0)).length
      + (l.filter (fun i => u i == 0 && v i == 1)).length
      + (l.filter (fun i => u i == 1 && v i == 1)).length
      + (l.filter (fun i => u i == 0 && v i == 0)).length = l.length := by
  induction l with
  | nil => rfl
  | cons a t ih =>
    have ih' := ih (fun i hi => hu i (by simp [hi])) (fun i hi => hv i (by simp [hi]))
    rcases hu a (by simp) with hua | hua <;> rcases hv a (by simp) with hva | hva <;>
      simp [List.filter_cons, hua, hva] <;> omega

lemma ratio_in_unit (x d e : ℚ) (hx : 0 ≤ x) (hxd : x ≤ d) :
    (0 ≤ (if d ≤ 0 then e else x / d) ∧ (if d ≤ 0 then e else x / d) ≤ 1)
      ∨ (if d ≤ 0 then e else x / d) = e := by
  split_ifs with h
  · right
    rfl
  · left
    push_neg at h
    exact ⟨div_nonneg hx (le_of_lt h), (div_le_one h).mpr hxd⟩

lemma except_bind_ok {ε α β : Type} (a : α) (f : α → Except ε β) :
    (Except.ok a : Except ε α) >>= f = f a := rfl

lemma foldlM_eq_ok {ε α β : Type} (g : β → α → Except ε β) (f : β → α → β)
    (l : List α) (b : β) (h : ∀ b' a, a ∈ l → g b' a = .ok (f b' a)) :
    l.foldlM g b = .ok (l.foldl f b) := by
  induction l generalizing b with
  | nil => rfl
  | cons a t ih =>
    rw [List.foldlM_cons, h b a (by simp), except_bind_ok]
    rw [ih (f b a) (fun b' a' ha' => h b' a' (by simp [ha'])), List.foldl_cons]

lemma dice_score_ok (a b : NDArray) (e : ℚ) (h : a.shape = b.shape) :
    dice_score a b (.num e) = .ok (.num (diceQ a b e)) := by
  unfold dice_score diceQ
  rw [if_pos h]
  split_ifs with h0 <;> rfl

lemma rv_foldl_num (l : List ℕ) (v : ℕ → ℚ) (q : ℚ) :
    l.foldl (fun acc i => rvAdd acc (.num (v i))) (.num q)
      = .num (l.foldl (fun acc i => acc + v i) q) := by
  induction l generalizing q with
  | nil => rfl
  | cons a t ih =>
    rw [List.foldl_cons, List.foldl_cons]
    exact ih (q + v a)

lemma foldl_add_ones (l : List ℕ) (w : ℕ → ℚ) (q : ℚ) (h : ∀ i ∈ l, w i = 1) :
    l.foldl (fun acc i => acc + w i) q = q + l.length := by
  induction l generalizing q with
  | nil => simp
  | cons a t ih =>
    rw [List.foldl_cons, ih _ (fun i hi => h i (by simp [hi])), h a (by simp)]
    simp only [List.length_cons]
    push_cast
    ring

lemma mcd_eq (im1 im2 : NDArray) (c : ℕ) (rest : List ℕ)
    (h1 : im1.shape = c :: rest) (h2 : im2.shape = c :: rest) (hc : c ≠ 0) :
    multi_class_dice_score im1 im2
      = .ok (.num ((List.range c).foldl
          (fun acc i => acc + diceQ (sliceLeadP im1 i) (sliceLeadP im2 i) 1) 0 / c)) := by
  have hstep : ∀ (acc : RVal) (i : ℕ), i ∈ List.range c →
      (do
        let a ← sliceLead im1 i
        let b ← sliceLead im2 i
        let d ← dice_score a b (RVal.num 1)
        pure (rvAdd acc d))
      = Except.ok (rvAdd acc (.num (diceQ (sliceLeadP im1 i) (sliceLeadP im2 i) 1))) := by
    intro acc i hi
    have hic : i < c := List.mem_range.mp hi
    have hs1 : sliceLead im1 i = .ok (sliceLeadP im1 i) := by
      simp [sliceLead, h1, hic]
    have hs2 : sliceLead im2 i = .ok (sliceLeadP im2 i) := by
      simp [sliceLead, h2, hic]
    have hsh : (sliceLeadP im1 i).shape = (sliceLeadP im2 i).shape := by
      simp [sliceLeadP, h1, h2]
    rw [hs1, except_bind_ok, hs2, except_bind_ok, dice_score_ok _ _ 1 hsh, except_bind_ok]
    rfl
  unfold multi_class_dice_score
  rw [h1]
  simp only []
  rw [if_neg hc]
  rw [foldlM_eq_ok _ _ _ _ hstep, except_bind_ok, rv_foldl_num]
  rfl

lemma except_pure_bind {ε α β : Type} (a : α) (f : α → Except ε β) :
    (pure a : Except ε α) >>= f = f a := rfl

lemma sum_zipWith_cast_sub_sq_self (l : List ℚ) :
    (List.zipWith (fun a b => ((a - b : ℚ) : ℝ) ^ 2) l l).sum = 0 := by
  induction l with
  | nil => rfl
  | cons a t ih => simp [ih]

lemma euclid_self (p : List ℚ) : euclid p p = 0 := by
  unfold euclid
  rw [sum_zipWith_cast_sub_sq_self, Real.sqrt_zero]

lemma euclid_nonneg (p q : List ℚ) : 0 ≤ euclid p q := Real.sqrt_nonneg _

lemma foldl_min_le_init (l : List ℝ) (a : ℝ) : l.foldl min a ≤ a := by
  induction l generalizing a with
  | nil => exact le_refl a
  | cons x t ih => exact le_trans (ih (min a x)) (min_le_left a x)

lemma foldl_min_le_mem (l : List ℝ) (a x : ℝ) (hx : x ∈ l) : l.foldl min a ≤ x := by
  induction l generalizing a with
  | nil => simp at hx
  | cons y t ih =>
    rcases List.mem_cons.mp hx with rfl | hxt
    · exact le_trans (foldl_min_le_init t (min a x)) (min_le_right a x)
    · exact ih (min a y) hxt

lemma le_foldl_min (l : List ℝ) (a c : ℝ) (hc : c ≤ a) (h : ∀ x ∈ l, c ≤ x) :
    c ≤ l.foldl min a := by
  induction l generalizing a with
  | nil => exact hc
  | cons x t ih =>
    exact ih (min a x) (le_min hc (h x (by simp))) (fun y hy => h y (by simp [hy]))

lemma minD_nonneg (p : List ℚ) (v : List (List ℚ)) : 0 ≤ minD p v := by
  cases v with
  | nil => exact le_refl 0
  | cons q rest =>
    refine le_foldl_min _ _ _ (euclid_nonneg p q) ?_
    intro x hx
    obtain ⟨y, _, rfl⟩ := List.mem_map.mp hx
    exact euclid_nonneg p y

lemma minD_le (p q : List ℚ) (v : List (List ℚ)) (hq : q ∈ v) : minD p v ≤ euclid p q := by
  cases v with
  | nil => simp at hq
  | cons q0 rest =>
    rcases List.mem_cons.mp hq with rfl | hqr
    · exact foldl_min_le_init _ _
    · exact foldl_min_le_mem _ _ _ (List.mem_map_of_mem _ hqr)

lemma minD_self_mem (p : List ℚ) (u : List (List ℚ)) (hp : p ∈ u) : minD p u = 0 :=
  le_antisymm (by simpa [euclid_self] using minD_le p p u hp) (minD_nonneg p u)

lemma foldl_max_zeros (l : List ℝ) (h : ∀ x ∈ l, x = 0) : l.foldl max 0 = 0 := by
  induction l with
  | nil => rfl
  | cons a t ih =>
    rw [List.foldl_cons, h a (by simp), max_self]
    exact ih (fun x hx => h x (by simp [hx]))

lemma dH_self (u : List (List ℚ)) : dH u u = 0 := by
  unfold dH
  apply foldl_max_zeros
  intro x hx
  obtain ⟨p, hp, rfl⟩ := List.mem_map.mp hx
  exact minD_self_mem p u hp

lemma np_reshape_ok (a : NDArray) (s : List ℕ) (h : a.data.length = s.prod) :
    np_reshape a s = .ok ⟨s, a.data⟩ := by
  simp [np_reshape, h]

lemma foldl_add_zeros (l : List ℕ) (w : ℕ → ℝ) (q : ℝ) (h : ∀ i ∈ l, w i = 0) :
    l.foldl (fun acc i => acc + w i) q = q := by
  induction l generalizing q with
  | nil => rfl
  | cons a t ih =>
    rw [List.foldl_cons, h a (by simp), add_zero]
    exact ih q (fun i hi => h i (by simp [hi]))

lemma hausdorff2_eq (a b : NDArray) (m n m2 : ℕ) (ha : a.shape = [m, n])
    (hb : b.shape = [m2, n]) :
    hausdorff_score a b = .ok (dH (rows a) (rows b)) := by
  simp [hausdorff_score, directedHausdorff, ha, hb, pure_bind]

lemma hausdorff3_eq (a b : NDArray) (d0 d1 d2 : ℕ) (ha : a.shape = [d0, d1, d2])
    (hb : b.shape = [d0, d1, d2]) (hd1 : d1 ≠ 0) :
    hausdorff_score a b = .ok ((List.range d1).foldl
      (fun acc i => acc + dH (rows (sliceMidP a i)) (rows (sliceMidP b i))) 0 / (d1 : ℝ)) := by
  have hstep : ∀ (acc : ℝ) (i : ℕ), i ∈ List.range d1 →
      (do
        let ps ← sliceMid a i
        let gs ← sliceMid b i
        let d ← directedHausdorff ps gs
        pure (acc + d))
      = Except.ok (acc + dH (rows (sliceMidP a i)) (rows (sliceMidP b i))) := by
    intro acc i hi
    have hic : i < d1 := List.mem_range.mp hi
    have hsa : sliceMid a i = .ok (sliceMidP a i) := by simp [sliceMid, ha, hic]
    have hsb : sliceMid b i = .ok (sliceMidP b i) := by simp [sliceMid, hb, hic]
    have hsha : (sliceMidP a i).shape = [d0, d2] := by simp [sliceMidP, ha]
    have hshb : (sliceMidP b i).shape = [d0, d2] := by simp [sliceMidP, hb]
    rw [hsa, except_bind_ok, hsb, except_bind_ok]
    rw [show directedHausdorff (sliceMidP a i) (sliceMidP b i)
        = .ok (dH (rows (sliceMidP a i)) (rows (sliceMidP b i))) from by
      simp [directedHausdorff, hsha, hshb]]
    rw [except_bind_ok]
    rfl
  simp only [hausdorff_score, ha, hb, pure_bind]
  rw [if_neg hd1]
  rw [foldlM_eq_ok _ _ _ _ hstep, except_bind_ok]
  rfl

lemma hausdorff4_eq (a b : NDArray) (c h d w : ℕ) (ha : a.shape = [c, h, d, w])
    (hb : b.shape = [c, h, d, w]) (hva : a.data.length = a.shape.prod)
    (hvb : b.data.length = b.shape.prod) :
    hausdorff_score a b
      = hausdorff_score ⟨[h, c * d, w], a.data⟩ ⟨[h, c * d, w], b.data⟩ := by
  have hla : a.data.length = ([h, c * d, w] : List ℕ).prod := by
    rw [hva, ha]
    simp [List.prod_cons]
    ring
  have hlb : b.data.length = ([h, c * d, w] : List ℕ).prod := by
    rw [hvb, hb]
    simp [List.prod_cons]
    ring
  simp only [hausdorff_score, ha]
  rw [np_reshape_ok a _ hla, except_bind_ok, np_reshape_ok b _ hlb, except_bind_ok,
    except_pure_bind]

/-- C1: `reset()` does not restore a fresh instance: it rebinds `result_dict`
to `defaultdict(float)`, so the next `__call__` invokes `.append` on the float
default and raises `AttributeError`, while the same call on a freshly
constructed instance succeeds and appends the result. -/
theorem reset_then_call_raises :
    mm_call (mm_reset (mm_init [("m", fun (_ _ : Unit) => RVal.num 1)])) [()] [()]
        = .error .attributeError
    ∧ ∃ m', mm_call (mm_init [("m", fun (_ _ : Unit) => RVal.num 1)]) [()] [()] = .ok m'
        ∧ m'.num_samples = 1 ∧ m'.result_dict = [("m", .series [.num 1])] :=
  ⟨rfl, _, rfl, rfl, rfl⟩

/-- C2 (counterexample): `numeric_score` performs no shape check of its own;
a `(1,)` prediction against a `(2,)` ground truth has differing shapes yet
broadcasts, returning the counts `(FP, FN, TP, TN) = (1, 0, 1, 0)` instead of
failing. -/
theorem numeric_score_broadcast_counterexample :
    (numeric_score ⟨[1], [1]⟩ ⟨[2], [1, 0]⟩).toOption = some (1, 0, 1, 0)
    ∧ ([1] : List ℕ) ≠ [2] := by
  constructor
  · decide
  · decide

/-- C2 (amended): `numeric_score` fails (with the broadcast `ValueError`)
exactly when the two shapes are not broadcast-compatible; differing but
broadcast-compatible shapes return counts over the broadcast shape. -/
theorem numeric_score_error_iff_not_broadcastable (p g : NDArray) :
    numeric_score p g = .error .valueError ↔ bcastCompat p.shape g.shape = false := by
  unfold numeric_score
  by_cases h : bcastCompat p.shape g.shape <;> simp [h]

/-- C4 (counterexample): `dice_score` is a soft Dice, so self-comparison of a
soft mask is not `1.0`: on the one-element array `[1/2]` it returns `1/2`,
although the array has a nonzero element. -/
theorem dice_score_soft_self_counterexample :
    dice_score ⟨[1], [1/2]⟩ ⟨[1], [1/2]⟩ .nan = .ok (.num (1/2))
    ∧ (1/2 : ℚ) ≠ 1 := by
  constructor
  · norm_num [dice_score]
  · norm_num

/-- C4 (amended): `dice_score` raises the shape-mismatch `ValueError` on
differing shapes, returns `empty_score` when both sums are zero, and otherwise
returns `2·Σ(im1·im2) / (Σim1 + Σim2)`; self-comparison yields `1.0` for
0/1-valued arrays with at least one nonzero element, and all-zero arrays
return the `empty_score`. -/
theorem dice_score_spec (im1 im2 : NDArray) (X : RVal) :
    (im1.shape ≠ im2.shape → dice_score im1 im2 X = .error .valueError)
    ∧ (im1.shape = im2.shape → im1.data.sum + im2.data.sum = 0 →
        dice_score im1 im2 X = .ok X)
    ∧ (im1.shape = im2.shape → im1.data.sum + im2.data.sum ≠ 0 →
        dice_score im1 im2 X =
          .ok (.num (2 * (List.zipWith (fun x y => x * y) im1.data im2.data).sum /
            (im1.data.sum + im2.data.sum))))
    ∧ ((∀ x ∈ im1.data, x = 0 ∨ x = 1) → (∃ x ∈ im1.data, x ≠ 0) →
        dice_score im1 im1 X = .ok (.num 1))
    ∧ ((∀ x ∈ im1.data, x = 0) → dice_score im1 im1 X = .ok X) := by
  refine ⟨fun hne => ?_, fun hs h0 => ?_, fun hs h0 => ?_, fun hb hx => ?_, fun h0 => ?_⟩
  · simp [dice_score, hne]
  · simp [dice_score, hs, h0]
  · simp [dice_score, hs, h0]
  · have hpos : 0 < im1.data.sum := binary_sum_pos _ hb hx
    have hsum : im1.data.sum + im1.data.sum ≠ 0 := by linarith
    have hmul := binary_mul_self_sum _ hb
    unfold dice_score
    rw [if_pos rfl, if_neg hsum, hmul]
    have : 2 * im1.data.sum / (im1.data.sum + im1.data.sum) = 1 := by
      rw [div_eq_one_iff_eq hsum]
      ring
    rw [this]
  · have : im1.data.sum = 0 := List.sum_eq_zero h0
    simp [dice_score, this]

/-- C4 (witness): the amended Dice claim applied to the concrete binary mask
`[1, 0]` compared with itself gives exactly `1.0`. -/
theorem dice_score_spec_witness :
    dice_score ⟨[2], [1, 0]⟩ ⟨[2], [1, 0]⟩ .nan = .ok (.num 1) :=
  (dice_score_spec ⟨[2], [1, 0]⟩ ⟨[2], [1, 0]⟩ .nan).2.2.2.1 (by decide)
    ⟨1, by decide, by decide⟩

/-- C5 (counterexample): on the empty equal-shaped pair of shape `(0, 2)` the
normalizer `shape[0] * shape[1]` is zero and numpy float division gives `nan`,
so `mse(A, A)` is `nan`, not `0`. -/
theorem mse_empty_self_counterexample :
    mse ⟨[0, 2], []⟩ ⟨[0, 2], []⟩ = .ok .nan ∧ RVal.nan ≠ RVal.num 0 := by
  constructor
  · norm_num [mse]
  · simp

/-- C5 (amended): `mse` raises the shape-mismatch `ValueError` on differing
shapes; on equal-shaped arrays with at least two axes and a nonzero
`shape[0] * shape[1]` it returns the sum of squared differences divided by
`shape[0] * shape[1]` (only the first two axis sizes, regardless of rank), and
self-comparison gives `0`; when `shape[0] * shape[1] = 0` the division yields
`nan` instead. -/
theorem mse_spec (a b : NDArray) :
    (a.shape ≠ b.shape → mse a b = .error .valueError)
    ∧ (∀ s0 s1 rest, a.shape = s0 :: s1 :: rest → a.shape = b.shape → s0 * s1 ≠ 0 →
        mse a b = .ok (.num ((List.zipWith (fun x y => (x - y) ^ 2) a.data b.data).sum /
          ((s0 * s1 : ℕ) : ℚ))))
    ∧ (∀ s0 s1 rest, a.shape = s0 :: s1 :: rest → s0 * s1 ≠ 0 →
        mse a a = .ok (.num 0)) := by
  refine ⟨fun hne => ?_, fun s0 s1 rest ha hs hn => ?_, fun s0 s1 rest ha hn => ?_⟩
  · simp [mse, hne]
  · have hb : b.shape = s0 :: s1 :: rest := by rw [← hs, ha]
    obtain ⟨hs0, hs1⟩ := mul_ne_zero_iff.mp hn
    simp [mse, ha, hb, hs0, hs1]
  · obtain ⟨hs0, hs1⟩ := mul_ne_zero_iff.mp hn
    simp [mse, ha, hs0, hs1, sum_zipWith_sub_sq_self]

/-- C5 (witness): the amended mse claim applied to a concrete 3-axis pair:
the divisor is `2 * 1 = 2` (not the element count `4`), and self-comparison
gives `0`. -/
theorem mse_spec_witness :
    mse ⟨[2, 1, 2], [1, 2, 3, 4]⟩ ⟨[2, 1, 2], [1, 0, 0, 4]⟩ =
      .ok (.num ((4 + 9) / 2))
    ∧ mse ⟨[2, 1, 2], [1, 2, 3, 4]⟩ ⟨[2, 1, 2], [1, 2, 3, 4]⟩ = .ok (.num 0) := by
  constructor
  · have h := (mse_spec ⟨[2, 1, 2], [1, 2, 3, 4]⟩ ⟨[2, 1, 2], [1, 0, 0, 4]⟩).2.1
      2 1 [2] rfl rfl (by decide)
    rw [h]
    norm_num
  · exact (mse_spec ⟨[2, 1, 2], [1, 2, 3, 4]⟩ ⟨[2, 1, 2], [1, 2, 3, 4]⟩).2.2
      2 1 [2] rfl (by decide)

/-- C10: on equal-shaped one-axis inputs `mse` passes the shape check but
`im1.shape[1]` does not exist, so the call raises `IndexError` (not the
shape-mismatch `ValueError`); `mse` is total only from two axes up. -/
theorem mse_one_axis_index_error (a b : NDArray) (hs : a.shape = b.shape)
    (h1 : a.shape.length = 1) :
    mse a b = .error .indexError ∧ PyErr.indexError ≠ PyErr.valueError := by
  have h : ∃ n, a.shape = [n] := by
    rcases ha : a.shape with _ | ⟨x, _ | ⟨y, t⟩⟩
    · rw [ha] at h1; simp at h1
    · exact ⟨x, rfl⟩
    · rw [ha] at h1; simp at h1
  obtain ⟨n, hn⟩ := h
  have hb : b.shape = [n] := by rw [← hs, hn]
  constructor
  · simp [mse, hn, hb]
  · decide

/-- C10 (witness): the one-axis claim at the concrete equal-shaped pair
`[1, 0]` and `[0, 0]`. -/
theorem mse_one_axis_index_error_witness :
    mse ⟨[2], [1, 0]⟩ ⟨[2], [0, 0]⟩ = .error .indexError ∧
      PyErr.indexError ≠ PyErr.valueError :=
  mse_one_axis_index_error ⟨[2], [1, 0]⟩ ⟨[2], [0, 0]⟩ rfl rfl

/-- C3: `get_results` reports, for a metric whose stored series consists
entirely of `nan`, the "no data" value (`None`); for a series with at least
one non-`nan` entry it reports `np.nanmean` of the series (the mean ignoring
`nan` entries); a metric with no recorded series is absent from the report, so
reading it yields "no data" as well.  `get_results` is a read-only function of
the state in this embedding, so it cannot change the aggregator. -/
theorem get_results_spec {α : Type} (m : MetricManager α) (k : String) :
    (∀ l, dget m.result_dict k = some (.series l) → (∀ r ∈ l, r = RVal.nan) →
        reportGet (get_results m) k = none)
    ∧ (∀ l, dget m.result_dict k = some (.series l) → (∃ r ∈ l, r ≠ RVal.nan) →
        reportGet (get_results m) k = some (nanmean l))
    ∧ (dget m.result_dict k = none → reportGet (get_results m) k = none) := by
  have hmap : dget (get_results m) k = (dget m.result_dict k).map entryVal :=
    dget_map m.result_dict entryVal k
  refine ⟨fun l hl hall => ?_, fun l hl hex => ?_, fun hl => ?_⟩
  · have hnan : l.all isnanR = true :=
      List.all_eq_true.mpr (fun r hr => by rw [hall r hr]; rfl)
    simp [reportGet, hmap, hl, entryVal, hnan]
  · have hnan : l.all isnanR = false := by
      obtain ⟨r, hr, hne⟩ := hex
      exact List.all_eq_false.mpr ⟨r, hr, by simp [isnanR_eq_false hne]⟩
    simp [reportGet, hmap, hl, entryVal, hnan]
  · simp [reportGet, hmap, hl]

/-- C3 (witness): for the concrete state whose series for `"m"` is
`[nan, 1, 2]`, the summary reports the `nan`-ignoring mean `3/2`. -/
theorem get_results_spec_witness :
    reportGet (get_results (⟨[("m", fun _ _ => RVal.num 1)], 3,
        [("m", DVal.series [RVal.nan, RVal.num 1, RVal.num 2])], .listD⟩ : MetricManager Unit))
      "m" = some (RVal.num (3/2)) := by
  have h := (get_results_spec (⟨[("m", fun _ _ => RVal.num 1)], 3,
      [("m", DVal.series [RVal.nan, RVal.num 1, RVal.num 2])], .listD⟩ : MetricManager Unit)
      "m").2.1 [RVal.nan, RVal.num 1, RVal.num 2] rfl ⟨RVal.num 1, by simp, by simp⟩
  rw [h]
  norm_num [nanmean, isinfR, toNum, List.filterMap_cons]

/-- C8: on equal-shaped arrays of 0/1 values, `numeric_score` succeeds and the
four returned confusion counts are non-negative and sum to the total element
count `shape.prod` of the compared arrays. -/
theorem numeric_score_counts_spec (p g : NDArray) (hs : p.shape = g.shape)
    (hp : ∀ x ∈ p.data, x = 0 ∨ x = 1) (hg : ∀ x ∈ g.data, x = 0 ∨ x = 1) :
    ∃ FP FN TP TN : ℚ, numeric_score p g = .ok (FP, FN, TP, TN)
      ∧ 0 ≤ FP ∧ 0 ≤ FN ∧ 0 ≤ TP ∧ 0 ≤ TN
      ∧ FP + FN + TP + TN = (p.shape.prod : ℚ) := by
  have hc : bcastCompat p.shape g.shape = true := by rw [hs]; exact bcastCompat_self _
  have hbs : bshape p.shape g.shape = p.shape := by rw [hs]; exact bshape_self _
  have hpart := filter_four_partition (bget p) (bget g)
    (allIndices (bshape p.shape g.shape))
    (fun i _ => bget_binary p hp i) (fun i _ => bget_binary g hg i)
  have hsum : bcount p g 1 0 + bcount p g 0 1 + bcount p g 1 1 + bcount p g 0 0
      = p.shape.prod := by
    unfold bcount
    rw [hpart, hbs, length_allIndices]
  refine ⟨(bcount p g 1 0 : ℚ), (bcount p g 0 1 : ℚ), (bcount p g 1 1 : ℚ),
    (bcount p g 0 0 : ℚ), ?_, ?_, ?_, ?_, ?_, ?_⟩
  · simp [numeric_score, hc]
  · exact Nat.cast_nonneg _
  · exact Nat.cast_nonneg _
  · exact Nat.cast_nonneg _
  · exact Nat.cast_nonneg _
  · exact_mod_cast congrArg (Nat.cast : ℕ → ℚ) hsum

/-- C8 (witness): the counts claim at a concrete equal-shaped binary pair. -/
theorem numeric_score_counts_spec_witness :
    ∃ FP FN TP TN : ℚ,
      numeric_score ⟨[2, 2], [1, 0, 0, 1]⟩ ⟨[2, 2], [1, 1, 0, 0]⟩ = .ok (FP, FN, TP, TN)
      ∧ 0 ≤ FP ∧ 0 ≤ FN ∧ 0 ≤ TP ∧ 0 ≤ TN
      ∧ FP + FN + TP + TN = (([2, 2] : List ℕ).prod : ℚ) :=
  numeric_score_counts_spec ⟨[2, 2], [1, 0, 0, 1]⟩ ⟨[2, 2], [1, 1, 0, 0]⟩ rfl
    (by decide) (by decide)

/-- C7: on equal-shaped 0/1 arrays, each ratio metric returns `err_value` when
its denominator is not positive and the corresponding confusion-count ratio
otherwise, and every returned value lies in `[0, 1]` or equals `err_value`. -/
theorem ratio_metrics_spec (p g : NDArray) (e : ℚ) (hs : p.shape = g.shape)
    (hp : ∀ x ∈ p.data, x = 0 ∨ x = 1) (hg : ∀ x ∈ g.data, x = 0 ∨ x = 1) :
    ∃ FP FN TP TN : ℚ, numeric_score p g = .ok (FP, FN, TP, TN)
      ∧ precision_score p g e = .ok (if TP + FP ≤ 0 then e else TP / (TP + FP))
      ∧ recall_score p g e = .ok (if TP + FN ≤ 0 then e else TP / (TP + FN))
      ∧ specificity_score p g e = .ok (if TN + FP ≤ 0 then e else TN / (TN + FP))
      ∧ intersection_over_union p g e
          = .ok (if TP + FP + FN ≤ 0 then e else TP / (TP + FP + FN))
      ∧ (∀ v, precision_score p g e = .ok v → (0 ≤ v ∧ v ≤ 1) ∨ v = e)
      ∧ (∀ v, recall_score p g e = .ok v → (0 ≤ v ∧ v ≤ 1) ∨ v = e)
      ∧ (∀ v, specificity_score p g e = .ok v → (0 ≤ v ∧ v ≤ 1) ∨ v = e)
      ∧ (∀ v, intersection_over_union p g e = .ok v → (0 ≤ v ∧ v ≤ 1) ∨ v = e) := by
  have hc : bcastCompat p.shape g.shape = true := by rw [hs]; exact bcastCompat_self _
  have hok : numeric_score p g = .ok ((bcount p g 1 0 : ℚ), (bcount p g 0 1 : ℚ),
      (bcount p g 1 1 : ℚ), (bcount p g 0 0 : ℚ)) := by
    simp [numeric_score, hc]
  have hprec : precision_score p g e
      = .ok (if (bcount p g 1 1 : ℚ) + (bcount p g 1 0 : ℚ) ≤ 0 then e
          else (bcount p g 1 1 : ℚ) / ((bcount p g 1 1 : ℚ) + (bcount p g 1 0 : ℚ))) := by
    unfold precision_score
    rw [hok]
    simp only []
    split_ifs <;> rfl
  have hrec : recall_score p g e
      = .ok (if (bcount p g 1 1 : ℚ) + (bcount p g 0 1 : ℚ) ≤ 0 then e
          else (bcount p g 1 1 : ℚ) / ((bcount p g 1 1 : ℚ) + (bcount p g 0 1 : ℚ))) := by
    unfold recall_score
    rw [hok]
    simp only []
    split_ifs <;> rfl
  have hspec : specificity_score p g e
      = .ok (if (bcount p g 0 0 : ℚ) + (bcount p g 1 0 : ℚ) ≤ 0 then e
          else (bcount p g 0 0 : ℚ) / ((bcount p g 0 0 : ℚ) + (bcount p g 1 0 : ℚ))) := by
    unfold specificity_score
    rw [hok]
    simp only []
    split_ifs <;> rfl
  have hiou : intersection_over_union p g e
      = .ok (if (bcount p g 1 1 : ℚ) + (bcount p g 1 0 : ℚ) + (bcount p g 0 1 : ℚ) ≤ 0 then e
          else (bcount p g 1 1 : ℚ) /
            ((bcount p g 1 1 : ℚ) + (bcount p g 1 0 : ℚ) + (bcount p g 0 1 : ℚ))) := by
    unfold intersection_over_union
    rw [hok]
    simp only []
    split_ifs <;> rfl
  refine ⟨_, _, _, _, hok, hprec, hrec, hspec, hiou, ?_, ?_, ?_, ?_⟩
  · intro v hv
    rw [hprec] at hv
    have hv' := (Except.ok.inj hv).symm
    subst hv'
    exact ratio_in_unit _ _ _ (Nat.cast_nonneg _)
      (le_add_of_nonneg_right (Nat.cast_nonneg _))
  · intro v hv
    rw [hrec] at hv
    have hv' := (Except.ok.inj hv).symm
    subst hv'
    exact ratio_in_unit _ _ _ (Nat.cast_nonneg _)
      (le_add_of_nonneg_right (Nat.cast_nonneg _))
  · intro v hv
    rw [hspec] at hv
    have hv' := (Except.ok.inj hv).symm
    subst hv'
    exact ratio_in_unit _ _ _ (Nat.cast_nonneg _)
      (le_add_of_nonneg_right (Nat.cast_nonneg _))
  · intro v hv
    rw [hiou] at hv
    have hv' := (Except.ok.inj hv).symm
    subst hv'
    have h1 : (bcount p g 1 1 : ℚ) ≤ (bcount p g 1 1 : ℚ) + (bcount p g 1 0 : ℚ)
        + (bcount p g 0 1 : ℚ) := by
      have := Nat.cast_nonneg (α := ℚ) (bcount p g 1 0)
      have := Nat.cast_nonneg (α := ℚ) (bcount p g 0 1)
      linarith
    exact ratio_in_unit _ _ _ (Nat.cast_nonneg _) h1

/-- C7 (witness): the ratio-metric claim at a concrete equal-shaped binary
pair with `err_value = 7`. -/
theorem ratio_metrics_spec_witness :
    ∃ FP FN TP TN : ℚ,
      numeric_score ⟨[2, 2], [1, 0, 0, 1]⟩ ⟨[2, 2], [1, 1, 0, 0]⟩ = .ok (FP, FN, TP, TN)
      ∧ precision_score ⟨[2, 2], [1, 0, 0, 1]⟩ ⟨[2, 2], [1, 1, 0, 0]⟩ 7
          = .ok (if TP + FP ≤ 0 then 7 else TP / (TP + FP))
      ∧ recall_score ⟨[2, 2], [1, 0, 0, 1]⟩ ⟨[2, 2], [1, 1, 0, 0]⟩ 7
          = .ok (if TP + FN ≤ 0 then 7 else TP / (TP + FN))
      ∧ specificity_score ⟨[2, 2], [1, 0, 0, 1]⟩ ⟨[2, 2], [1, 1, 0, 0]⟩ 7
          = .ok (if TN + FP ≤ 0 then 7 else TN / (TN + FP))
      ∧ intersection_over_union ⟨[2, 2], [1, 0, 0, 1]⟩ ⟨[2, 2], [1, 1, 0, 0]⟩ 7
          = .ok (if TP + FP + FN ≤ 0 then 7 else TP / (TP + FP + FN))
      ∧ (∀ v, precision_score ⟨[2, 2], [1, 0, 0, 1]⟩ ⟨[2, 2], [1, 1, 0, 0]⟩ 7 = .ok v →
          (0 ≤ v ∧ v ≤ 1) ∨ v = 7)
      ∧ (∀ v, recall_score ⟨[2, 2], [1, 0, 0, 1]⟩ ⟨[2, 2], [1, 1, 0, 0]⟩ 7 = .ok v →
          (0 ≤ v ∧ v ≤ 1) ∨ v = 7)
      ∧ (∀ v, specificity_score ⟨[2, 2], [1, 0, 0, 1]⟩ ⟨[2, 2], [1, 1, 0, 0]⟩ 7 = .ok v →
          (0 ≤ v ∧ v ≤ 1) ∨ v = 7)
      ∧ (∀ v, intersection_over_union ⟨[2, 2], [1, 0, 0, 1]⟩ ⟨[2, 2], [1, 1, 0, 0]⟩ 7 = .ok v →
          (0 ≤ v ∧ v ≤ 1) ∨ v = 7) :=
  ratio_metrics_spec ⟨[2, 2], [1, 0, 0, 1]⟩ ⟨[2, 2], [1, 1, 0, 0]⟩ 7 rfl
    (by decide) (by decide)

/-- C6 (counterexample): `multi_class_dice_score` inherits soft Dice, so
self-comparison of a soft multi-class array is not `1.0`: for the one-class
array `[[1/2]]` it returns `1/2`. -/
theorem multi_class_dice_soft_counterexample :
    multi_class_dice_score ⟨[1, 1], [1/2]⟩ ⟨[1, 1], [1/2]⟩ = .ok (.num (1/2))
    ∧ (1/2 : ℚ) ≠ 1 := by
  constructor
  · have h := mcd_eq ⟨[1, 1], [1/2]⟩ ⟨[1, 1], [1/2]⟩ 1 [1] rfl rfl one_ne_zero
    rw [h]
    norm_num [List.range_succ, sliceLeadP, diceQ]
  · norm_num

/-- C6 (amended): for arrays sharing a leading class axis of size `c ≥ 1` and
equal per-class slice shapes, `multi_class_dice_score` returns the arithmetic
mean over the `c` classes of `dice_score` on the per-class slices with
`empty_score = 1.0`; self-comparison yields `1.0` for 0/1-valued arrays. -/
theorem multi_class_dice_score_spec (im1 im2 : NDArray) (c : ℕ) (rest : List ℕ)
    (h1 : im1.shape = c :: rest) (h2 : im2.shape = c :: rest) (hc : c ≠ 0) :
    multi_class_dice_score im1 im2
      = .ok (.num ((List.range c).foldl
          (fun acc i => acc + diceQ (sliceLeadP im1 i) (sliceLeadP im2 i) 1) 0 / c))
    ∧ ((∀ x ∈ im1.data, x = 0 ∨ x = 1) → multi_class_dice_score im1 im1 = .ok (.num 1)) := by
  refine ⟨mcd_eq im1 im2 c rest h1 h2 hc, fun hb => ?_⟩
  rw [mcd_eq im1 im1 c rest h1 h1 hc]
  have hone : ∀ i ∈ List.range c, diceQ (sliceLeadP im1 i) (sliceLeadP im1 i) 1 = 1 := by
    intro i _
    have hbl : ∀ x ∈ (sliceLeadP im1 i).data, x = 0 ∨ x = 1 := by
      intro x hx
      exact hb x (List.mem_of_mem_drop (List.mem_of_mem_take hx))
    unfold diceQ
    split_ifs with h0
    · rfl
    · rw [binary_mul_self_sum _ hbl, div_eq_one_iff_eq h0]
      ring
  rw [foldl_add_ones _ _ _ hone, List.length_range]
  rw [zero_add, div_self (Nat.cast_ne_zero.mpr hc)]

/-- C6 (witness): the amended multi-class Dice claim at the concrete binary
two-class array `[[1,0],[0,1]]` compared with itself gives exactly `1.0`. -/
theorem multi_class_dice_score_spec_witness :
    multi_class_dice_score ⟨[2, 2], [1, 0, 0, 1]⟩ ⟨[2, 2], [1, 0, 0, 1]⟩ = .ok (.num 1) :=
  (multi_class_dice_score_spec ⟨[2, 2], [1, 0, 0, 1]⟩ ⟨[2, 2], [1, 0, 0, 1]⟩ 2 [2]
    rfl rfl (by decide)).2 (by decide)

/-- C9: for equal-shaped inputs, `hausdorff_score` returns the directed
Hausdorff distance of the raw arrays for a 2-axis pair; for a 3-axis pair it
returns the mean over the middle axis of the per-slice directed distances; a
4-axis `(class, height, depth, width)` pair is first reshaped to
`(height, class*depth, width)` and then treated as the 3-axis case; and
self-comparison of a non-empty array of any of these ranks scores `0`. -/
theorem hausdorff_score_spec (a b : NDArray) :
    (∀ m n, a.shape = [m, n] → b.shape = [m, n] →
        hausdorff_score a b = .ok (dH (rows a) (rows b)))
    ∧ (∀ d0 d1 d2, a.shape = [d0, d1, d2] → b.shape = [d0, d1, d2] → d1 ≠ 0 →
        hausdorff_score a b = .ok ((List.range d1).foldl
          (fun acc i => acc + dH (rows (sliceMidP a i)) (rows (sliceMidP b i))) 0 / (d1 : ℝ)))
    ∧ (∀ c h d w, a.shape = [c, h, d, w] → b.shape = [c, h, d, w] →
        a.data.length = a.shape.prod → b.data.length = b.shape.prod →
        hausdorff_score a b
          = hausdorff_score ⟨[h, c * d, w], a.data⟩ ⟨[h, c * d, w], b.data⟩)
    ∧ (a.shape.prod ≠ 0 →
        (a.shape.length = 2 ∨ a.shape.length = 3 ∨ a.shape.length = 4) →
        a.data.length = a.shape.prod →
        hausdorff_score a a = .ok 0) := by
  refine ⟨fun m n ha hb => hausdorff2_eq a b m n m ha hb,
    fun d0 d1 d2 ha hb hd1 => hausdorff3_eq a b d0 d1 d2 ha hb hd1,
    fun c h d w ha hb hva hvb => hausdorff4_eq a b c h d w ha hb hva hvb,
    fun hprod hlen hval => ?_⟩
  rcases ha : a.shape with _ | ⟨x, _ | ⟨y, _ | ⟨z, _ | ⟨v, t⟩⟩⟩⟩ <;>
    rw [ha] at hlen <;> simp only [List.length_cons, List.length_nil] at hlen
  · omega
  · omega
  · rw [hausdorff2_eq a a x y x ha ha, dH_self]
  · have hy : y ≠ 0 := by
      intro h0
      apply hprod
      rw [ha, h0]
      simp
    rw [hausdorff3_eq a a x y z ha ha hy]
    rw [foldl_add_zeros _ _ _ (fun i _ => dH_self _), zero_div]
  · rcases t with _ | ⟨u, t2⟩
    · have hxz : x * z ≠ 0 := by
        intro h0
        apply hprod
        rw [ha]
        rcases Nat.mul_eq_zero.mp h0 with h' | h' <;> simp [h']
      rw [hausdorff4_eq a a x y z v ha ha hval hval]
      rw [hausdorff3_eq _ _ y (x * z) v rfl rfl hxz]
      rw [foldl_add_zeros _ _ _ (fun i _ => dH_self _), zero_div]
    · simp at hlen

/-- C9 (witness): the Hausdorff claim at a concrete non-empty 2-axis array
compared with itself gives `0`. -/
theorem hausdorff_score_spec_witness :
    hausdorff_score ⟨[2, 2], [1, 0, 0, 1]⟩ ⟨[2, 2], [1, 0, 0, 1]⟩ = .ok 0 :=
  (hausdorff_score_spec ⟨[2, 2], [1, 0, 0, 1]⟩ ⟨[2, 2], [1, 0, 0, 1]⟩).2.2.2
    (by decide) (by decide) (by decide)
